import Mathlib

/-!
Shallow embedding of src/vm-curator/.gemini_ascii_tool/ascii_gen.py, the
URL-to-ASCII-art pipeline of the vm-curator repository.

Modelling conventions:
* Python strings are modelled as `List Char`; PIL images as explicit pixel
  grids (a mode tag, declared width and height, and a row-major pixel list).
* The float arithmetic of resize_image is modelled exactly over ℚ, and
  Python's int() truncation toward zero is `pyInt`.
* The network fetch and decode (requests.get + Image.open, lines 28-35) is
  modelled as an already-determined `Except` value fed to generate_ascii:
  `.error e` is the caught exception with message `e`, `.ok img` the decoded
  image.
* Calls into the PIL library (resize, convert, paste, point, getdata) are not
  repository source; each is modelled from its documented behaviour as
  described by the spec, see the doc comment at each definition.
-/

namespace AsciiGen

/-- Python str modelled as a list of characters. -/
def strL (s : String) : List Char := s.toList

/-- ASCII_CHARS (line 8): the fixed 10-character ramp, darkest to lightest. -/
def ASCII_CHARS : List Char := strL "@%#*+=-:. "

/-- Python int() applied to a rational value: truncation toward zero. -/
def pyInt (q : ℚ) : ℤ := if 0 ≤ q then ⌊q⌋ else -⌊-q⌋

/-- Python round() applied to a rational value: round half to even.  Used only
to state the spec's rounding formula; the source does not round. -/
def pyRound (q : ℚ) : ℤ :=
  if q - ⌊q⌋ < 1 / 2 then ⌊q⌋
  else if 1 / 2 < q - ⌊q⌋ then ⌊q⌋ + 1
  else if ⌊q⌋ % 2 = 0 then ⌊q⌋ else ⌊q⌋ + 1

/-- A decoded PIL image: mode tag, declared width and height, and the
row-major pixel list (channel values are naturals, 0-255 in real images).
The P constructor carries its RGBA palette. -/
inductive PILImage where
  | L (w h : ℕ) (px : List ℕ)
  | RGB (w h : ℕ) (px : List (ℕ × ℕ × ℕ))
  | RGBA (w h : ℕ) (px : List (ℕ × ℕ × ℕ × ℕ))
  | LA (w h : ℕ) (px : List (ℕ × ℕ))
  | P (w h : ℕ) (pal : List (ℕ × ℕ × ℕ × ℕ)) (px : List ℕ)
deriving DecidableEq

/-- Declared width of the image (image.size first component). -/
def PILImage.width : PILImage → ℕ
  | .L w _ _ => w
  | .RGB w _ _ => w
  | .RGBA w _ _ => w
  | .LA w _ _ => w
  | .P w _ _ _ => w

/-- Declared height of the image (image.size second component). -/
def PILImage.height : PILImage → ℕ
  | .L _ h _ => h
  | .RGB _ h _ => h
  | .RGBA _ h _ => h
  | .LA _ h _ => h
  | .P _ h _ _ => h

/-- Source pixel indices covered by target cell x when resampling w source
columns down to W target columns; a cell covering no source pixel falls back
to the floor-scaled nearest index.  Part of the resampling model, see
resampleWith. -/
def boxRange (x w W : ℕ) : List ℕ :=
  let l := (List.range w).filter fun i => x * w ≤ i * W ∧ i * W < (x + 1) * w
  if l.isEmpty then [x * w / W] else l

/-- Channel average of a nonempty sample list (integer division). -/
def avgN (l : List ℕ) : ℕ := l.sum / l.length

/-- Componentwise average for two-channel pixels. -/
def avg2 (l : List (ℕ × ℕ)) : ℕ × ℕ :=
  (avgN (l.map fun q => q.1), avgN (l.map fun q => q.2))

/-- Componentwise average for three-channel pixels. -/
def avg3 (l : List (ℕ × ℕ × ℕ)) : ℕ × ℕ × ℕ :=
  (avgN (l.map fun q => q.1), avgN (l.map fun q => q.2.1),
    avgN (l.map fun q => q.2.2))

/-- Componentwise average for four-channel pixels. -/
def avg4 (l : List (ℕ × ℕ × ℕ × ℕ)) : ℕ × ℕ × ℕ × ℕ :=
  (avgN (l.map fun q => q.1), avgN (l.map fun q => q.2.1),
    avgN (l.map fun q => q.2.2.1), avgN (l.map fun q => q.2.2.2))

/-- Modelled from the spec: Image.resize resamples with a high-quality
normalized filter (Lanczos); the model takes the average of the source box of
each target cell, which agrees with any normalized filter on constant images.
Produces exactly H * W pixels, row-major, for target size (W, H). -/
def resampleWith {α : Type} (w h W H : ℕ) (avg : List α → α) (d : α)
    (px : List α) : List α :=
  ((List.range H).map fun y =>
    (List.range W).map fun x =>
      avg (((boxRange y h H).map fun j =>
        (boxRange x w W).map fun i => px.getD (j * w + i) d).flatten)).flatten

/-- Modelled from the spec: the pixel grid returned by Image.resize for target
size (W, H), channelwise resampling, mode preserved. -/
def resample : PILImage → ℕ → ℕ → PILImage
  | .L w h px, W, H => .L W H (resampleWith w h W H avgN 0 px)
  | .RGB w h px, W, H => .RGB W H (resampleWith w h W H avg3 (0, 0, 0) px)
  | .RGBA w h px, W, H => .RGBA W H (resampleWith w h W H avg4 (0, 0, 0, 0) px)
  | .LA w h px, W, H => .LA W H (resampleWith w h W H avg2 (0, 0) px)
  | .P w h pal px, W, H => .P W H pal (resampleWith w h W H avgN 0 px)

/-- Lines 12-14 of resize_image: ratio = height / width / ratio_val;
new_height = int(new_width * ratio); if new_height == 0: new_height = 1.
The source's local name for the quotient is ratio. -/
def new_height_of (image : PILImage) (new_width : ℤ) (ratio_val : ℚ) : ℤ :=
  let hwq : ℚ := (image.height : ℚ) / (image.width : ℚ) / ratio_val
  let nh0 : ℤ := pyInt ((new_width : ℚ) * hwq)
  if nh0 = 0 then 1 else nh0

/-- resize_image (lines 10-16).  A zero-width image or zero ratio_val raises
ZeroDivisionError in Python; PIL's resample core raises ValueError when either
target dimension is below 1 (this is how a malformed --width surfaces).
Errors are modelled as `.error` with the Python message. -/
def resize_image (image : PILImage) (new_width : ℤ) (ratio_val : ℚ) :
    Except (List Char) PILImage :=
  if image.width = 0 ∨ ratio_val = 0 then
    .error (strL "ZeroDivisionError: division by zero")
  else if new_width < 1 ∨ new_height_of image new_width ratio_val < 1 then
    .error (strL "ValueError: height and width must be > 0")
  else .ok (resample image new_width.toNat
    (new_height_of image new_width ratio_val).toNat)

/-- Modelled from the spec: the PIL integer form of the perceptual grayscale
weighting L = R*299/1000 + G*587/1000 + B*114/1000, computed as
(R*19595 + G*38470 + B*7471 + 2^15) >> 16. -/
def l24 (r g b : ℕ) : ℕ := (r * 19595 + g * 38470 + b * 7471 + 32768) / 65536

/-- grayify (lines 18-19): image.convert("L").  Modelled from the spec:
convert into the image's own mode returns the image unchanged; color modes
reduce with the perceptual weighting l24; LA drops alpha; P goes through its
palette. -/
def grayify : PILImage → PILImage
  | .L w h px => .L w h px
  | .RGB w h px => .L w h (px.map fun q => l24 q.1 q.2.1 q.2.2)
  | .RGBA w h px => .L w h (px.map fun q => l24 q.1 q.2.1 q.2.2.1)
  | .LA w h px => .L w h (px.map fun q => q.1)
  | .P w h pal px =>
    .L w h (px.map fun i =>
      let q := pal.getD i (0, 0, 0, 255)
      l24 q.1 q.2.1 q.2.2.1)

/-- Modelled from the spec: PIL's MULDIV255 macro, the rounding division by
255 used by Image.paste when blending with a mask. -/
def mulDiv255 (a b : ℕ) : ℕ := ((a * b + 128) / 256 + (a * b + 128)) / 256

/-- Modelled from the spec: one channel of Image.paste onto a background with
an 8-bit blend mask: mask 255 keeps the pasted value, 0 keeps the background,
intermediate values interpolate. -/
def blend (mask bgv fgv : ℕ) : ℕ :=
  mulDiv255 bgv (255 - mask) + mulDiv255 fgv mask

/-- Lines 37-38: if img.mode == 'P': img = img.convert('RGBA').  Modelled from
the spec: palette conversion looks each index up in the RGBA palette. -/
def toRGBAifP : PILImage → PILImage
  | .P w h pal px => .RGBA w h (px.map fun i => pal.getD i (0, 0, 0, 255))
  | i => i

/-- Lines 40-47: if img.mode in ('RGBA', 'LA'), paste onto an opaque white
RGB background of the same size using the alpha band as mask; other modes
pass through.  An LA source is promoted to RGB by replicating its luminance
band. -/
def compositeWhite : PILImage → PILImage
  | .RGBA w h px =>
    .RGB w h (px.map fun q =>
      (blend q.2.2.2 255 q.1, blend q.2.2.2 255 q.2.1, blend q.2.2.2 255 q.2.2.1))
  | .LA w h px =>
    .RGB w h (px.map fun q => (blend q.2 255 q.1, blend q.2 255 q.1, blend q.2 255 q.1))
  | i => i

/-- Color normalization, lines 37-47 as a whole. -/
def normalizeColor (i : PILImage) : PILImage := compositeWhite (toRGBAifP i)

/-- The binarization lambda of line 52: 255 if p > threshold else 0. -/
def thresholdFn (threshold : ℤ) (p : ℕ) : ℕ :=
  if (p : ℤ) > threshold then 255 else 0

/-- img.point(lambda p: 255 if p > threshold else 0), line 52.  Modelled from
the spec: point applies the lambda to every channel value; only the L case is
reachable here since grayify runs first.  P is returned unchanged (point on a
palette image is never reached in this pipeline). -/
def point_threshold (threshold : ℤ) : PILImage → PILImage
  | .L w h px => .L w h (px.map (thresholdFn threshold))
  | .RGB w h px =>
    .RGB w h (px.map fun q =>
      (thresholdFn threshold q.1, thresholdFn threshold q.2.1,
        thresholdFn threshold q.2.2))
  | .RGBA w h px =>
    .RGBA w h (px.map fun q =>
      (thresholdFn threshold q.1, thresholdFn threshold q.2.1,
        thresholdFn threshold q.2.2.1, thresholdFn threshold q.2.2.2))
  | .LA w h px =>
    .LA w h (px.map fun q => (thresholdFn threshold q.1, thresholdFn threshold q.2))
  | .P w h pal px => .P w h pal px

/-- Lines 51-52 of generate_ascii: apply the threshold when it is set. -/
def applyThreshold : Option ℤ → PILImage → PILImage
  | some t, i => point_threshold t i
  | none, i => i

/-- pixels_to_ascii (lines 21-25): flatten row-major via image.getdata() and
map each luminance through the ramp at index int(pixel * (len - 1) / 255).
Python would raise a TypeError on the tuple pixels of a non-grayscale image;
that branch is unreachable in the pipeline (grayify runs first) and is
modelled as the empty string. -/
def pixels_to_ascii : PILImage → List Char
  | .L _ _ px =>
    px.map fun pixel =>
      ASCII_CHARS.getD (pixel * (ASCII_CHARS.length - 1) / 255) '?'
  | _ => []

/-- The slices new_image_data[index:(index+width)] for index in
range(0, pixel_count, width), line 57. -/
def chunksIdx (width : ℕ) (s : List Char) : List (List Char) :=
  (List.range ((s.length + width - 1) / width)).map fun i =>
    (s.drop (i * width)).take width

/-- Python str.join: the separator between consecutive items. -/
def joinSep (sep : List Char) : List (List Char) → List Char
  | [] => []
  | [x] => x
  | x :: y :: t => x ++ sep ++ joinSep sep (y :: t)

/-- Lines 56-57: split the flat character sequence into width-sized slices and
join them with newlines. -/
def ascii_join (width : ℕ) (s : List Char) : List Char :=
  joinSep ['\n'] (chunksIdx width s)

/-- generate_ascii (lines 27-58) from the point the fetch outcome is known:
on a caught fetch/decode exception print the error line and return None;
otherwise normalize color, resize (which can raise, uncaught), grayify,
optionally binarize, map to characters and join rows.  The result pairs the
printed lines with the Python return value. -/
def generate_ascii (fetched : Except (List Char) PILImage) (width : ℤ)
    (ratio_val : ℚ) (threshold : Option ℤ) :
    Except (List Char) (List (List Char) × Option (List Char)) :=
  match fetched with
  | .error e => .ok ([strL "Error loading image: " ++ e], none)
  | .ok img0 =>
    match resize_image (normalizeColor img0) width ratio_val with
    | .error m => .error m
    | .ok rimg =>
      .ok ([], some (ascii_join width.toNat
        (pixels_to_ascii (applyThreshold threshold (grayify rimg)))))

/-- The __main__ block (lines 60-71): run generate_ascii and print the result
only when it is truthy (not None and not empty).  Yields every line printed to
standard output, or the uncaught exception. -/
def main_output (fetched : Except (List Char) PILImage) (width : ℤ)
    (ratio_val : ℚ) (threshold : Option ℤ) :
    Except (List Char) (List (List Char)) :=
  match generate_ascii fetched width ratio_val threshold with
  | .error m => .error m
  | .ok (printed, res) =>
    .ok (printed ++ match res with
      | some a => if a = [] then [] else [a]
      | none => [])

/-- Modelled from the spec: flattening an RGBA image onto a pure-white
background, compositing each pixel over opaque white with the alpha channel as
blend mask.  Spec-side definition used to compare against the pipeline's own
normalization step. -/
def flattenWhiteSpec : PILImage → PILImage
  | .RGBA w h px =>
    .RGB w h (px.map fun q =>
      (blend q.2.2.2 255 q.1, blend q.2.2.2 255 q.2.1, blend q.2.2.2 255 q.2.2.1))
  | i => i

/-- Modelled from the spec: the character-mapping step in the spec's own
words - for each luminance p select the ramp character at index
floor(p * (rampLength - 1) / 255), concatenate, split into rows of length
target_width, join with newlines. -/
def charMapSpec (target_width : ℕ) (px : List ℕ) : List Char :=
  joinSep ['\n'] (chunksIdx target_width (px.map fun p : ℕ =>
    ASCII_CHARS.getD ⌊(p : ℚ) * ((ASCII_CHARS.length : ℚ) - 1) / 255⌋₊ '?'))

/-- The 2-by-2 all-white opaque RGB image of the spec's concrete scenario. -/
def whiteSquare : PILImage :=
  .RGB 2 2 [(255, 255, 255), (255, 255, 255), (255, 255, 255), (255, 255, 255)]

lemma resample_width (i : PILImage) (W H : ℕ) : (resample i W H).width = W := by
  cases i <;> rfl

lemma resample_height (i : PILImage) (W H : ℕ) : (resample i W H).height = H := by
  cases i <;> rfl

lemma normalizeColor_width (i : PILImage) : (normalizeColor i).width = i.width := by
  cases i <;> rfl

lemma new_height_of_eq (img : PILImage) (W : ℤ) (r : ℚ)
    (_hw : 0 < img.width) (hW : 0 ≤ W) (hr : 0 < r) :
    new_height_of img W r =
      max 1 ⌊(W : ℚ) * ((img.height : ℚ) / (img.width : ℚ)) / r⌋ := by
  have hq : (0 : ℚ) ≤ (W : ℚ) * ((img.height : ℚ) / (img.width : ℚ) / r) :=
    mul_nonneg (by exact_mod_cast hW)
      (div_nonneg (div_nonneg (Nat.cast_nonneg _) (Nat.cast_nonneg _)) hr.le)
  have hfl : 0 ≤ ⌊(W : ℚ) * ((img.height : ℚ) / (img.width : ℚ) / r)⌋ :=
    Int.floor_nonneg.mpr hq
  have hpy : pyInt ((W : ℚ) * ((img.height : ℚ) / (img.width : ℚ) / r)) =
      ⌊(W : ℚ) * ((img.height : ℚ) / (img.width : ℚ) / r)⌋ := by
    unfold pyInt
    rw [if_pos hq]
  have hassoc : (W : ℚ) * ((img.height : ℚ) / (img.width : ℚ)) / r =
      (W : ℚ) * ((img.height : ℚ) / (img.width : ℚ) / r) := mul_div_assoc _ _ _
  rw [hassoc]
  show (if pyInt ((W : ℚ) * ((img.height : ℚ) / (img.width : ℚ) / r)) = 0 then 1
      else pyInt ((W : ℚ) * ((img.height : ℚ) / (img.width : ℚ) / r))) =
    max 1 ⌊(W : ℚ) * ((img.height : ℚ) / (img.width : ℚ) / r)⌋
  rw [hpy]
  rcases eq_or_lt_of_le hfl with h0 | hpos
  · rw [if_pos h0.symm, ← h0]
    simp
  · rw [if_neg (by omega), max_eq_right (by omega)]

lemma resize_ok (img : PILImage) (W : ℤ) (r : ℚ)
    (hw : 0 < img.width) (hW : 0 < W) (hr : 0 < r) :
    resize_image img W r =
      .ok (resample img W.toNat (new_height_of img W r).toNat) := by
  have h1 : ¬(img.width = 0 ∨ r = 0) := by
    push_neg
    exact ⟨by omega, ne_of_gt hr⟩
  have hnh : 1 ≤ new_height_of img W r := by
    rw [new_height_of_eq img W r hw hW.le hr]
    exact le_max_left _ _
  have h2 : ¬(W < 1 ∨ new_height_of img W r < 1) := by
    push_neg
    exact ⟨by omega, hnh⟩
  unfold resize_image
  rw [if_neg h1, if_neg h2]

/-- C1: the claim's rounding formula fails on the code.  For a 1-by-1 image
with target_width 3 and aspect_ratio 2 the code truncates, int(3 * (1/1) / 2)
= 1, and produces one row, while the claimed round(3 * (1/1) / 2) clamped to
a minimum of 1 is 2. -/
theorem c1_resize_round_cex :
    resize_image (PILImage.L 1 1 [7]) 3 2 = .ok (PILImage.L 3 1 [7, 7, 7]) ∧
    max 1 (pyRound ((3 : ℚ) * ((1 : ℚ) / (1 : ℚ)) / 2)) = 2 ∧
    (PILImage.L 3 1 [7, 7, 7]).height ≠ 2 := by
  refine ⟨by with_unfolding_all rfl, by with_unfolding_all decide, by decide⟩

/-- C1 (amended): for every image of positive width and every positive
target_width W and aspect_ratio r, the resize step succeeds and produces an
image of exactly W columns and max 1 ⌊W * (h / w) / r⌋ rows - the height is
the Python int() truncation (a floor, the operand being nonnegative) of
W * (h / w) / r clamped to a minimum of 1, not the round() the spec states. -/
theorem c1_resize_dims (img : PILImage) (W : ℤ) (r : ℚ)
    (hw : 0 < img.width) (hW : 0 < W) (hr : 0 < r) :
    resize_image img W r =
      .ok (resample img W.toNat (new_height_of img W r).toNat) ∧
    (resample img W.toNat (new_height_of img W r).toNat).width = W.toNat ∧
    ((resample img W.toNat (new_height_of img W r).toNat).height : ℤ) =
      max 1 ⌊(W : ℚ) * ((img.height : ℚ) / (img.width : ℚ)) / r⌋ := by
  refine ⟨resize_ok img W r hw hW hr, resample_width _ _ _, ?_⟩
  rw [resample_height, new_height_of_eq img W r hw hW.le hr]
  exact Int.toNat_of_nonneg (le_trans zero_le_one (le_max_left _ _))

/-- C1 witness: the amended dimension formula evaluated on a concrete 1-by-2
image with target_width 3 and aspect_ratio 2. -/
theorem c1_resize_dims_app :
    resize_image (PILImage.L 1 2 [5, 6]) 3 2 =
      .ok (PILImage.L 3 3 [5, 5, 5, 6, 6, 6, 6, 6, 6]) ∧
    (PILImage.L 3 3 [5, 5, 5, 6, 6, 6, 6, 6, 6]).width = 3 ∧
    ((PILImage.L 3 3 [5, 5, 5, 6, 6, 6, 6, 6, 6]).height : ℤ) =
      max 1 ⌊(3 : ℚ) * (((2 : ℕ) : ℚ) / ((1 : ℕ) : ℚ)) / 2⌋ := by
  have h := c1_resize_dims (PILImage.L 1 2 [5, 6]) 3 2 (by decide) (by decide) (by norm_num)
  with_unfolding_all exact h

/-- C7: grayscale conversion is idempotent - grayify applied to an image that
is already single-channel grayscale returns it unchanged, every pixel value
and both dimensions included. -/
theorem c7_grayify_noop (w h : ℕ) (px : List ℕ) :
    grayify (PILImage.L w h px) = PILImage.L w h px := rfl

/-- C8: when the fetch or decode fails with message e, generate_ascii prints
exactly the line "Error loading image: e", returns None - no ASCII art and no
partial output - and does not propagate the exception; __main__ then prints
nothing beyond that line. -/
theorem c8_fetch_error (e : List Char) (W : ℤ) (r : ℚ) (t : Option ℤ) :
    generate_ascii (.error e) W r t =
      .ok ([strL "Error loading image: " ++ e], none) ∧
    main_output (.error e) W r t = .ok [strL "Error loading image: " ++ e] :=
  ⟨rfl, rfl⟩

lemma rampIdx_eq (p : ℕ) :
    ⌊(p : ℚ) * ((ASCII_CHARS.length : ℚ) - 1) / 255⌋₊ =
      p * (ASCII_CHARS.length - 1) / 255 := by
  have h10 : ASCII_CHARS.length = 10 := by decide
  rw [h10]
  have hcast : (p : ℚ) * (((10 : ℕ) : ℚ) - 1) = ((p * 9 : ℕ) : ℚ) := by
    push_cast
    ring
  rw [hcast, show (255 : ℚ) = ((255 : ℕ) : ℚ) by norm_num, Nat.floor_div_nat,
    Nat.floor_natCast]

lemma pixels_to_ascii_spec (w h : ℕ) (px : List ℕ) :
    pixels_to_ascii (PILImage.L w h px) = px.map fun p : ℕ =>
      ASCII_CHARS.getD ⌊(p : ℚ) * ((ASCII_CHARS.length : ℚ) - 1) / 255⌋₊ '?' := by
  have hfn : (fun pixel =>
      ASCII_CHARS.getD (pixel * (ASCII_CHARS.length - 1) / 255) '?') =
      fun p : ℕ =>
        ASCII_CHARS.getD ⌊(p : ℚ) * ((ASCII_CHARS.length : ℚ) - 1) / 255⌋₊ '?' := by
    funext p
    rw [rampIdx_eq]
  show px.map _ = px.map _
  rw [hfn]

/-- C2: the character-mapping step.  On any grayscale image the code's ramp
index int(p * (rampLength - 1) / 255) agrees with the spec's floor formula and
the code's slice-into-rows-of-target_width-and-join equals the spec-side
charMapSpec; luminance 0 maps to the first ramp character and 255 to the last
(the space); the ramp has exactly 10 characters, first and last as stated. -/
theorem c2_char_mapping :
    (∀ (w h target_width : ℕ) (px : List ℕ),
      ascii_join target_width (pixels_to_ascii (PILImage.L w h px)) =
        charMapSpec target_width px) ∧
    pixels_to_ascii (PILImage.L 1 1 [0]) = ['@'] ∧
    pixels_to_ascii (PILImage.L 1 1 [255]) = [' '] ∧
    ASCII_CHARS.length = 10 ∧
    ASCII_CHARS.head? = some '@' ∧ ASCII_CHARS.getLast? = some ' ' := by
  refine ⟨?_, by decide, by decide, by decide, by decide, by decide⟩
  intro w h W px
  unfold ascii_join charMapSpec
  rw [pixels_to_ascii_spec]

lemma mem_joinSep {c : Char} {sep : List Char} :
    ∀ {xs : List (List Char)}, c ∈ joinSep sep xs → c ∈ sep ∨ ∃ l ∈ xs, c ∈ l := by
  intro xs
  induction xs with
  | nil =>
    intro h
    simp [joinSep] at h
  | cons a t ih =>
    cases t with
    | nil =>
      intro h
      simp only [joinSep] at h
      exact Or.inr ⟨a, by simp, h⟩
    | cons b t2 =>
      intro h
      simp only [joinSep] at h
      rw [List.mem_append, List.mem_append] at h
      rcases h with (h | h) | h
      · exact Or.inr ⟨a, by simp, h⟩
      · exact Or.inl h
      · rcases ih h with hs | ⟨l, hl, hc⟩
        · exact Or.inl hs
        · exact Or.inr ⟨l, List.mem_cons_of_mem a hl, hc⟩

lemma chunksIdx_subset {c : Char} {W : ℕ} {s : List Char} {l : List Char}
    (hl : l ∈ chunksIdx W s) (hc : c ∈ l) : c ∈ s := by
  unfold chunksIdx at hl
  obtain ⟨i, _, rfl⟩ := List.mem_map.mp hl
  exact List.drop_subset _ _ (List.take_subset _ _ hc)

lemma grayify_isL (i : PILImage) : ∃ w h q, grayify i = PILImage.L w h q := by
  cases i <;> exact ⟨_, _, _, rfl⟩

/-- C3: with a threshold set, binarization replaces each luminance p by 255
when p is strictly greater than the threshold and by 0 otherwise, and every
character of the art generate_ascii then produces is one of the two ramp
characters for luminance 0 and 255 (or the newline row separator). -/
theorem c3_binarize_two_chars :
    (∀ (t : ℤ) (w h : ℕ) (px : List ℕ),
      point_threshold t (PILImage.L w h px) =
        PILImage.L w h (px.map fun p : ℕ => if (p : ℤ) > t then 255 else 0)) ∧
    ∀ (img : PILImage) (W : ℤ) (r : ℚ) (t : ℤ) (printed : List (List Char))
      (art : List Char),
      generate_ascii (.ok img) W r (some t) = .ok (printed, some art) →
      ∀ c ∈ art, c = '@' ∨ c = ' ' ∨ c = '\n' := by
  constructor
  · intro t w h px
    rfl
  · intro img W r t printed art hgen c hc
    cases hres : resize_image (normalizeColor img) W r with
    | error m =>
      simp only [generate_ascii, hres] at hgen
      exact Except.noConfusion hgen
    | ok rimg =>
      simp only [generate_ascii, hres, Except.ok.injEq, Prod.mk.injEq,
        Option.some.injEq] at hgen
      obtain ⟨hprint, hart⟩ := hgen
      subst hart
      obtain ⟨w2, h2, q, hq⟩ := grayify_isL rimg
      rw [hq] at hc
      rcases mem_joinSep hc with hsep | ⟨l, hl, hcl⟩
      · right
        right
        simpa using hsep
      · have hdata : c ∈ (q.map (thresholdFn t)).map
            (fun pixel =>
              ASCII_CHARS.getD (pixel * (ASCII_CHARS.length - 1) / 255) '?') :=
          chunksIdx_subset hl hcl
        obtain ⟨p, hp, rfl⟩ := List.mem_map.mp hdata
        obtain ⟨p0, hp0, rfl⟩ := List.mem_map.mp hp
        unfold thresholdFn
        by_cases hpt : (p0 : ℤ) > t
        · rw [if_pos hpt]
          right
          left
          decide
        · rw [if_neg hpt]
          left
          decide

/-- C3 witness: the binarized render of a one-pixel black image at threshold
100 consists of the dark ramp character. -/
theorem c3_binarize_two_chars_app : '@' = '@' ∨ '@' = ' ' ∨ '@' = '\n' :=
  c3_binarize_two_chars.2 (PILImage.L 1 1 [0]) 1 1 100 [] ['@']
    (by with_unfolding_all rfl) '@' (by decide)

/-- C10: the ramp index int(p * (rampLength - 1) / 255) stays within the
10-character ramp for every luminance p in [0, 255]; the binarization lambda
only ever produces 0 or 255, for every integer threshold, in range or not, so
its output also always indexes the ramp in bounds. -/
theorem c10_ramp_index_bounds :
    (∀ p : ℕ, p ≤ 255 → p * (ASCII_CHARS.length - 1) / 255 < ASCII_CHARS.length) ∧
    (∀ (t : ℤ) (p : ℕ), thresholdFn t p = 0 ∨ thresholdFn t p = 255) ∧
    (∀ (t : ℤ) (p : ℕ),
      thresholdFn t p * (ASCII_CHARS.length - 1) / 255 < ASCII_CHARS.length) := by
  have h10 : ASCII_CHARS.length = 10 := by decide
  refine ⟨?_, ?_, ?_⟩
  · intro p hp
    rw [h10]
    have h9 : p * 9 ≤ 2295 := by omega
    have h : p * 9 / 255 ≤ 2295 / 255 := Nat.div_le_div_right h9
    norm_num at h
    omega
  · intro t p
    unfold thresholdFn
    by_cases hpt : (p : ℤ) > t
    · rw [if_pos hpt]
      exact Or.inr rfl
    · rw [if_neg hpt]
      exact Or.inl rfl
  · intro t p
    unfold thresholdFn
    by_cases hpt : (p : ℤ) > t
    · rw [if_pos hpt]
      decide
    · rw [if_neg hpt]
      decide

/-- C10 witness: the maximal luminance 255 indexes the ramp in bounds. -/
theorem c10_ramp_index_bounds_app :
    255 * (ASCII_CHARS.length - 1) / 255 < ASCII_CHARS.length :=
  c10_ramp_index_bounds.1 255 (by decide)

lemma sum_map_constN {β : Type} (l : List β) (n : ℕ) :
    (l.map fun _ => n).sum = l.length * n := by
  induction l with
  | nil => simp
  | cons a t ih =>
    simp [ih]
    ring

lemma length_flatten_map_map {β : Type} (f : ℕ → ℕ → β) (H W : ℕ) :
    (((List.range H).map fun y => (List.range W).map fun x => f y x).flatten).length =
      H * W := by
  rw [List.length_flatten, List.map_map]
  rw [show (List.length ∘ fun y => (List.range W).map fun x => f y x) =
    fun _ : ℕ => W from funext fun y => by simp]
  rw [sum_map_constN, List.length_range]

lemma resampleWith_length {α : Type} (w h W H : ℕ) (avg : List α → α) (d : α)
    (px : List α) : (resampleWith w h W H avg d px).length = H * W := by
  unfold resampleWith
  exact length_flatten_map_map _ H W

lemma grayify_resample (i : PILImage) (N H : ℕ) :
    ∃ q : List ℕ, grayify (resample i N H) = PILImage.L N H q ∧
      q.length = H * N := by
  cases i with
  | L w h px => exact ⟨_, rfl, resampleWith_length w h N H avgN 0 px⟩
  | RGB w h px =>
    refine ⟨_, rfl, ?_⟩
    rw [List.length_map]
    exact resampleWith_length w h N H avg3 (0, 0, 0) px
  | RGBA w h px =>
    refine ⟨_, rfl, ?_⟩
    rw [List.length_map]
    exact resampleWith_length w h N H avg4 (0, 0, 0, 0) px
  | LA w h px =>
    refine ⟨_, rfl, ?_⟩
    rw [List.length_map]
    exact resampleWith_length w h N H avg2 (0, 0) px
  | P w h pal px =>
    refine ⟨_, rfl, ?_⟩
    rw [List.length_map]
    exact resampleWith_length w h N H avgN 0 px

lemma applyThreshold_L (t : Option ℤ) (w h : ℕ) (q : List ℕ) :
    ∃ q2 : List ℕ, applyThreshold t (PILImage.L w h q) = PILImage.L w h q2 ∧
      q2.length = q.length := by
  cases t with
  | none => exact ⟨q, rfl, rfl⟩
  | some v => exact ⟨_, rfl, by simp⟩

lemma data_length (i : PILImage) (t : Option ℤ) (N H : ℕ) :
    (pixels_to_ascii (applyThreshold t (grayify (resample i N H)))).length =
      H * N := by
  obtain ⟨q, hq, hql⟩ := grayify_resample i N H
  rw [hq]
  obtain ⟨q2, hq2, hq2l⟩ := applyThreshold_L t N H q
  rw [hq2]
  show (q2.map _).length = H * N
  rw [List.length_map, hq2l, hql]

lemma chunksIdx_count (N H : ℕ) (s : List Char) (hN : 0 < N)
    (hs : s.length = H * N) : (chunksIdx N s).length = H := by
  unfold chunksIdx
  rw [List.length_map, List.length_range, hs]
  have hc : H * N = N * H := Nat.mul_comm H N
  have h1 : H * N + N - 1 = (N - 1) + N * H := by omega
  rw [h1, Nat.add_mul_div_left _ _ hN, Nat.div_eq_of_lt (by omega)]
  omega

lemma chunksIdx_lens (N H : ℕ) (s : List Char) (hN : 0 < N)
    (hs : s.length = H * N) :
    (chunksIdx N s).map List.length = List.replicate H N := by
  have hC : (s.length + N - 1) / N = H := by
    have := chunksIdx_count N H s hN hs
    simpa [chunksIdx, List.length_map, List.length_range] using this
  apply List.eq_replicate_iff.mpr
  constructor
  · rw [List.length_map]
    exact chunksIdx_count N H s hN hs
  · intro b hb
    obtain ⟨l, hl, rfl⟩ := List.mem_map.mp hb
    unfold chunksIdx at hl
    obtain ⟨i, hi, rfl⟩ := List.mem_map.mp hl
    rw [List.mem_range, hC] at hi
    have h2 : i * N + N ≤ H * N := by
      have h3 : (i + 1) * N ≤ H * N := Nat.mul_le_mul_right N hi
      have h4 : (i + 1) * N = i * N + N := by ring
      omega
    rw [List.length_take, List.length_drop, hs]
    omega

/-- C4: for every decoded image of positive width, positive target_width W,
positive aspect_ratio and any threshold: the flattened character sequence has
length (resized height) * W, so W divides it exactly, the row split yields
exactly (resized height) lines, and every line - the last included - has
length exactly W. -/
theorem c4_line_structure (img : PILImage) (W : ℤ) (r : ℚ) (t : Option ℤ)
    (rimg : PILImage) (hw : 0 < img.width) (hW : 0 < W) (hr : 0 < r)
    (hres : resize_image (normalizeColor img) W r = .ok rimg) :
    generate_ascii (.ok img) W r t =
      .ok ([], some (ascii_join W.toNat
        (pixels_to_ascii (applyThreshold t (grayify rimg))))) ∧
    (pixels_to_ascii (applyThreshold t (grayify rimg))).length =
      rimg.height * W.toNat ∧
    W.toNat ∣ (pixels_to_ascii (applyThreshold t (grayify rimg))).length ∧
    (chunksIdx W.toNat
      (pixels_to_ascii (applyThreshold t (grayify rimg)))).length =
      rimg.height ∧
    (chunksIdx W.toNat
      (pixels_to_ascii (applyThreshold t (grayify rimg)))).map List.length =
      List.replicate rimg.height W.toNat := by
  have hw2 : 0 < (normalizeColor img).width := by
    rw [normalizeColor_width]
    exact hw
  have hro := resize_ok (normalizeColor img) W r hw2 hW hr
  rw [hres] at hro
  have hrimg : rimg = resample (normalizeColor img) W.toNat
      (new_height_of (normalizeColor img) W r).toNat := Except.ok.inj hro
  have hWN : 0 < W.toNat := by omega
  have hdl : (pixels_to_ascii (applyThreshold t (grayify rimg))).length =
      rimg.height * W.toNat := by
    conv_lhs => rw [hrimg]
    rw [hrimg, resample_height]
    exact data_length (normalizeColor img) t W.toNat _
  refine ⟨?_, hdl, ⟨rimg.height, by rw [hdl]; ring⟩,
    chunksIdx_count W.toNat rimg.height _ hWN hdl,
    chunksIdx_lens W.toNat rimg.height _ hWN hdl⟩
  simp only [generate_ascii, hres]

/-- C4 witness: the line structure evaluated on a one-pixel image rendered at
target_width 1. -/
theorem c4_line_structure_app :
    generate_ascii (.ok (PILImage.L 1 1 [0])) 1 1 none = .ok ([], some ['@']) ∧
    (pixels_to_ascii (applyThreshold none (grayify (PILImage.L 1 1 [0])))).length =
      1 * 1 ∧
    1 ∣ (pixels_to_ascii (applyThreshold none (grayify (PILImage.L 1 1 [0])))).length ∧
    (chunksIdx 1
      (pixels_to_ascii (applyThreshold none (grayify (PILImage.L 1 1 [0]))))).length =
      1 ∧
    (chunksIdx 1
      (pixels_to_ascii (applyThreshold none (grayify (PILImage.L 1 1 [0]))))).map
      List.length = List.replicate 1 1 := by
  have h := c4_line_structure (PILImage.L 1 1 [0]) 1 1 none (PILImage.L 1 1 [0])
    (by decide) (by decide) (by norm_num) (by with_unfolding_all rfl)
  with_unfolding_all exact h

/-- C5: the claimed concrete scenario fails on the code.  With target_width 2
and ratio 1.0 the code computes new_height = int(2 * (2/2) / 1.0) = 2, so the
white 2-by-2 image is resized to 2-by-2, not 2-by-1, and the output is two
lines of two spaces, not a single line of two spaces. -/
theorem c5_white_scenario_cex :
    generate_ascii (.ok whiteSquare) 2 1 none =
      .ok ([], some [' ', ' ', '\n', ' ', ' ']) ∧
    resize_image whiteSquare 2 1 = .ok (PILImage.RGB 2 2
      [(255, 255, 255), (255, 255, 255), (255, 255, 255), (255, 255, 255)]) ∧
    (PILImage.RGB 2 2
      [(255, 255, 255), (255, 255, 255), (255, 255, 255), (255, 255, 255)]).height ≠ 1 ∧
    ([' ', ' ', '\n', ' ', ' '] : List Char) ≠ [' ', ' '] := by
  refine ⟨by with_unfolding_all rfl, by with_unfolding_all rfl, by decide, by decide⟩

/-- C5 (amended): for the 2-by-2 all-white opaque RGB image with
target_width 2, ratio 1.0 and no threshold, the pipeline resizes to 2-by-2,
grayscales to all-255 luminance, and outputs two lines each consisting of
exactly two space characters. -/
theorem c5_white_scenario :
    generate_ascii (.ok whiteSquare) 2 1 none =
      .ok ([], some [' ', ' ', '\n', ' ', ' ']) ∧
    resize_image whiteSquare 2 1 = .ok (PILImage.RGB 2 2
      [(255, 255, 255), (255, 255, 255), (255, 255, 255), (255, 255, 255)]) ∧
    grayify (PILImage.RGB 2 2
      [(255, 255, 255), (255, 255, 255), (255, 255, 255), (255, 255, 255)]) =
      PILImage.L 2 2 [255, 255, 255, 255] := by
  refine ⟨by with_unfolding_all rfl, by with_unfolding_all rfl, by decide⟩

/-- C6: color normalization converts palette images to RGBA before
compositing, and an RGBA input - fully transparent pixels included - renders
to exactly the same ASCII output as the same image pre-flattened onto a
pure-white background, because normalization composites the RGBA image over
opaque white while the pre-flattened opaque RGB image passes through
normalization unchanged. -/
theorem c6_alpha_flatten :
    (∀ (w h : ℕ) (pal : List (ℕ × ℕ × ℕ × ℕ)) (px : List ℕ),
      normalizeColor (PILImage.P w h pal px) =
        normalizeColor (PILImage.RGBA w h
          (px.map fun i => pal.getD i (0, 0, 0, 255)))) ∧
    ∀ (w h : ℕ) (px : List (ℕ × ℕ × ℕ × ℕ)) (W : ℤ) (r : ℚ) (t : Option ℤ),
      generate_ascii (.ok (PILImage.RGBA w h px)) W r t =
        generate_ascii (.ok (flattenWhiteSpec (PILImage.RGBA w h px))) W r t := by
  constructor
  · intro w h pal px
    rfl
  · intro w h px W r t
    rfl

/-- C9: the claim that malformed configuration always surfaces as a
downstream arithmetic or indexing failure is refuted by an out-of-range
threshold: with threshold 300 and an otherwise valid configuration the
pipeline runs to completion and produces its normal output - the
misconfiguration is silently tolerated, not a failure. -/
theorem c9_threshold_tolerated_cex :
    generate_ascii (.ok (PILImage.L 1 1 [0])) 1 1 (some 300) =
      .ok ([], some ['@']) := by
  with_unfolding_all rfl

/-- C9 (amended): a non-positive width is unvalidated and surfaces as a
downstream failure - PIL's resize raises ValueError - while an out-of-range
threshold is unvalidated but silently tolerated: the render still succeeds
and produces the usual binarized art. -/
theorem c9_malformed_config :
    (∀ (img : PILImage) (W : ℤ) (r : ℚ) (t : Option ℤ),
      0 < img.width → r ≠ 0 → W < 1 →
      generate_ascii (.ok img) W r t =
        .error (strL "ValueError: height and width must be > 0")) ∧
    ∀ (img : PILImage) (W : ℤ) (r : ℚ) (t : ℤ) (rimg : PILImage),
      255 < t ∨ t < 0 →
      resize_image (normalizeColor img) W r = .ok rimg →
      generate_ascii (.ok img) W r (some t) =
        .ok ([], some (ascii_join W.toNat
          (pixels_to_ascii (point_threshold t (grayify rimg))))) := by
  constructor
  · intro img W r t hw hr hW
    have h1 : ¬((normalizeColor img).width = 0 ∨ r = 0) := by
      push_neg
      rw [normalizeColor_width]
      exact ⟨by omega, hr⟩
    have h2 : W < 1 ∨ new_height_of (normalizeColor img) W r < 1 := Or.inl hW
    simp only [generate_ascii]
    unfold resize_image
    rw [if_neg h1, if_pos h2]
  · intro img W r t rimg _ht hres
    simp only [generate_ascii, hres]
    rfl

/-- C9 witness: width 0 fails with the resize ValueError on a valid image,
while threshold 300 succeeds and renders the dark ramp character. -/
theorem c9_malformed_config_app :
    generate_ascii (.ok (PILImage.L 1 1 [0])) 0 1 none =
      .error (strL "ValueError: height and width must be > 0") ∧
    generate_ascii (.ok (PILImage.L 1 1 [5])) 1 1 (some 300) =
      .ok ([], some ['@']) := by
  constructor
  · exact c9_malformed_config.1 (PILImage.L 1 1 [0]) 0 1 none (by decide)
      (by norm_num) (by decide)
  · have h := c9_malformed_config.2 (PILImage.L 1 1 [5]) 1 1 300
      (PILImage.L 1 1 [5]) (Or.inl (by decide)) (by with_unfolding_all rfl)
    with_unfolding_all exact h

end AsciiGen
